import Mathlib

/-!
Verification of `gpx_hr_merge.py`, a tool that merges timestamped heart-rate
samples (CSV) into the trackpoints of a GPX file.

Embedding conventions:

* A Python `datetime` instant is embedded as an integer number of
  microseconds since the epoch (`ℤ`); `datetime` comparison, subtraction and
  `timedelta.total_seconds()` become integer comparison, integer subtraction
  and division by `10 ^ 6`.  A structured view of `datetime` (the fields that
  `datetime.strptime` produces, including the `microsecond` field filled in
  by the `%f` directive) is given by `PyDateTime` below, with
  `PyDateTime.toMicros` the translation to the integer view.
* Python's real-valued arithmetic (`timedelta / timedelta`, which yields a
  float, and the builtin `round`) is embedded over `ℚ`; `round`'s
  half-to-even tie-breaking is `pyRound`.
* Fallible Python code is embedded in `Except Unit`: an uncaught exception
  (`IndexError`, `NameError`, ...) is `.error ()`.
* The heart-rate series `hr_data` is a list of `(instant, heart-rate)`
  pairs, embedded as `List (ℤ × ℤ)`.
-/

deriving instance DecidableEq for Except

/-- Python list indexing `l[i]` for the heart-rate series: negative indices
count from the end, an index out of range raises `IndexError` (`.error`). -/
def pyIndex (l : List (ℤ × ℤ)) (i : ℤ) : Except Unit (ℤ × ℤ) :=
  let n : ℤ := l.length
  let j : ℤ := if i < 0 then i + n else i
  if 0 ≤ j ∧ j < n then .ok (l.getD j.toNat (0, 0)) else .error ()

/-- The series element at a nonnegative index, as a total function (used to
state properties; it agrees with `pyIndex` on in-range indices). -/
def elt (data : List (ℤ × ℤ)) (i : ℤ) : ℤ × ℤ :=
  data.getD i.toNat (0, 0)

/-- Outcome of the `while min_ <= max_` loop of `binary_search_lerp`: the
loop either returned an exact match from inside its body (line 91 of the
source) or fell through with a final value of `idx`. -/
inductive LoopOut : Type
  | exact : ℤ → LoopOut
  | done : ℤ → LoopOut
deriving DecidableEq

/-- The binary-search loop of `binary_search_lerp` (source lines 87-95).

`fuel` bounds the number of iterations; the caller passes `data.length + 1`,
which always suffices (each iteration shrinks `hi - lo` by at least one), so
the `fuel = 0` branch is unreachable from `binary_search_lerp`.

`idxPrev` is the last value assigned to the loop variable `idx`.  When the
loop body never ran (empty series), `idx` was never assigned: the source
initialises a stray variable `i` on line 86, not `idx`, so line 99
(`hr_data[idx][0] > time`) raises `NameError`; this is the `.error` in the
`idxPrev = none` branch.  `Int.fdiv` is Python's floor division `//`. -/
def bsLoop (data : List (ℤ × ℤ)) (t : ℤ) :
    ℕ → ℤ → ℤ → Option ℤ → Except Unit LoopOut
  | 0, _, _, _ => .error ()
  | fuel + 1, lo, hi, idxPrev =>
    if lo ≤ hi then
      let idx := (lo + hi).fdiv 2
      match pyIndex data idx with
      | .error _ => .error ()
      | .ok p =>
        if p.1 = t then .ok (.exact p.2)
        else if p.1 < t then bsLoop data t fuel (idx + 1) hi (some idx)
        else bsLoop data t fuel lo (idx - 1) (some idx)
    else
      match idxPrev with
      | none => .error ()
      | some idx => .ok (.done idx)

/-- Python 3 `round` on an exact rational: round to the nearest integer,
ties to the even neighbour.  For the positive modulus 2, Lean's `%` on `ℤ`
agrees with Python's `%`. -/
def pyRound (q : ℚ) : ℤ :=
  let f : ℤ := Int.floor q
  let r : ℚ := q - (f : ℚ)
  if r < 1/2 then f
  else if 1/2 < r then f + 1
  else if f % 2 = 0 then f else f + 1

/-- The guard `max_interpolate is not None and
min(time-time1, time2-time).total_seconds() > max_interpolate` (source
line 109): `d1` and `d2` are the two `timedelta`s in microseconds, and
`total_seconds()` divides by `10 ^ 6`. -/
def gapTooBig (mi : Option ℚ) (d1 d2 : ℤ) : Bool :=
  match mi with
  | none => false
  | some g => decide (((min d1 d2 : ℤ) : ℚ) / 1000000 > g)

/-- `binary_search_lerp(time, hr_data, max_interpolate)` (source lines
80-112): binary search for `t` in the sorted series; on an exact match
return the stored heart rate; otherwise clamp `idx` to the lower bound
(`if hr_data[idx][0] > time: idx -= 1`), return `None` when
`not (0 <= idx < len(hr_data) - 1)` (no extrapolation), return `None` when
the `max_interpolate` gap guard fires, and otherwise linearly interpolate
and round.  The two `pyIndex` calls on `idx` and `idx + 1` are the slice
`hr_data[idx:idx+2]`, which the range guard has made in range.  `.error`
marks an uncaught Python exception (the empty-series `NameError`, see
`bsLoop`).  The division `(time-time1) / (time2-time1)` of two `timedelta`s
is real-valued division of the microsecond counts; the source never reaches
it with `time1 = time2` (which would raise `ZeroDivisionError`) since the
series it is called on is sorted with distinct instants and `time` matches
neither bracket. -/
def binary_search_lerp (t : ℤ) (data : List (ℤ × ℤ)) (mi : Option ℚ) :
    Except Unit (Option ℤ) :=
  match bsLoop data t (data.length + 1) 0 ((data.length : ℤ) - 1) none with
  | .error e => .error e
  | .ok (.exact v) => .ok (some v)
  | .ok (.done idx0) =>
    match pyIndex data idx0 with
    | .error e => .error e
    | .ok p =>
      let idx := if p.1 > t then idx0 - 1 else idx0
      if ¬(0 ≤ idx ∧ idx < (data.length : ℤ) - 1) then .ok none
      else
        match pyIndex data idx, pyIndex data (idx + 1) with
        | .ok q1, .ok q2 =>
          if gapTooBig mi (t - q1.1) (q2.1 - t) then .ok none
          else .ok (some (pyRound ((q1.2 : ℚ) +
            ((q2.2 : ℚ) - (q1.2 : ℚ)) *
              (((t : ℚ) - (q1.1 : ℚ)) / ((q2.1 : ℚ) - (q1.1 : ℚ))))))
        | .error e, _ => .error e
        | _, .error e => .error e

/-- The series is sorted with pairwise-distinct instants: the invariant the
interpolating lookup relies on.  `load_hr_data` establishes it by sorting
(line 50); duplicate instants are excluded by the spec's data-model
invariant ("no two samples ... share an instant"). -/
def StrictSorted (data : List (ℤ × ℤ)) : Prop :=
  ∀ i : ℕ, i < data.length → ∀ j : ℕ, j < data.length → i < j →
    (data.getD i (0, 0)).1 < (data.getD j (0, 0)).1

instance (data : List (ℤ × ℤ)) : Decidable (StrictSorted data) := by
  unfold StrictSorted; infer_instance

/-- A GPX trackpoint, reduced to what the merge loop reads and writes: its
timestamp (`get_time`) and its optional nested heart-rate extension value
(`set_hr` writes it, creating the intermediary elements as needed). -/
structure Trackpoint where
  time : ℤ
  hr : Option ℤ
deriving DecidableEq

/-- `set_hr(trkpt, value)` (source lines 62-77): store the heart rate in the
trackpoint's extension chain. -/
def set_hr (pt : Trackpoint) (v : ℤ) : Trackpoint :=
  Trackpoint.mk pt.time (some v)

/-- The per-trackpoint step of the merge loop (source lines 141-144):
look up `hr_at_time = binary_search_lerp(point_time, hr_data, ...)` and run
`if hr_at_time: set_hr(trkpt, hr_at_time)`.  The `if` tests Python
truthiness: both `None` and `0` are falsy, so a heart rate of exactly `0`
is never written. -/
def mergePoint (hrData : List (ℤ × ℤ)) (mi : Option ℚ) (pt : Trackpoint) :
    Except Unit Trackpoint :=
  match binary_search_lerp pt.time hrData mi with
  | .error e => .error e
  | .ok none => .ok pt
  | .ok (some v) => if v ≠ 0 then .ok (set_hr pt v) else .ok pt

/-- The filesystem, as an association list from file names to contents
(contents abstracted to `ℕ`); the merge orchestrator only ever observes it
through `fsLookup`. -/
abbrev FileSystem := List (String × ℕ)

/-- Content of the named file, if it exists. -/
def fsLookup : FileSystem → String → Option ℕ
  | [], _ => none
  | p :: rest, n => if p.1 = n then some p.2 else fsLookup rest n

/-- Remove the named file (helper for writing and renaming). -/
def fsErase : FileSystem → String → FileSystem
  | [], _ => []
  | p :: rest, n => if p.1 = n then fsErase rest n else p :: fsErase rest n

/-- Create or overwrite the named file with the given content. -/
def fsWrite (fs : FileSystem) (n : String) (c : ℕ) : FileSystem :=
  (n, c) :: fsErase fs n

/-- `os.rename(src, dst)`: move the file, silently overwriting `dst` (POSIX
semantics); raises if `src` does not exist. -/
def fsRename (fs : FileSystem) (src dst : String) : Except Unit FileSystem :=
  match fsLookup fs src with
  | none => .error ()
  | some c => .ok (fsWrite (fsErase fs src) dst c)

/-- Outcome of the `try` block of `merge` (source lines 133-147), abstracted
over the XML processing: either the new GPX document content to be written
to the original name, or a failure during parse/align/write.  A failing
write may have left a half-written file at the original name
(`fail (some c)`); a failure before or without writing leaves nothing
(`fail none`). -/
inductive BodyOutcome : Type
  | ok : ℕ → BodyOutcome
  | fail : Option ℕ → BodyOutcome

/-- Result of a `merge` run: whether it completed without raising, and the
final filesystem. -/
structure MergeResult where
  ok : Bool
  fs : FileSystem
deriving DecidableEq

/-- `merge(gpx_file, hr_file, interpolate)` at the filesystem level (source
lines 115-152).  `load` abstracts `load_hr_data` (CSV parsing of the
heart-rate file's content, which raises on malformed rows); `body` abstracts
the `try` block: `ET.parse` of the backup, the per-trackpoint alignment loop
and `gpx.write` to the original name, given the loaded series and the
backup's content.  The steps, in source order: open the heart-rate file
(raises if missing), parse it, check the GPX file exists, refuse to run if
`gpx_file + ".orig"` already exists, rename the original to the backup name,
run the body, and on a body failure rename the backup back before
re-raising. -/
def merge (fs : FileSystem) (gpxFile hrFile : String)
    (load : ℕ → Except Unit (List (ℤ × ℤ)))
    (body : List (ℤ × ℤ) → ℕ → BodyOutcome) : MergeResult :=
  match fsLookup fs hrFile with
  | none => MergeResult.mk false fs
  | some hc =>
    match load hc with
    | .error _ => MergeResult.mk false fs
    | .ok series =>
      if (fsLookup fs gpxFile).isNone then MergeResult.mk false fs
      else
        if (fsLookup fs (gpxFile ++ ".orig")).isSome then MergeResult.mk false fs
        else
          match fsRename fs gpxFile (gpxFile ++ ".orig") with
          | .error _ => MergeResult.mk false fs
          | .ok fs1 =>
            match fsLookup fs1 (gpxFile ++ ".orig") with
            | none => MergeResult.mk false fs1
            | some c =>
              match body series c with
              | .ok newC => MergeResult.mk true (fsWrite fs1 gpxFile newC)
              | .fail w =>
                let fs2 := match w with
                  | none => fs1
                  | some pc => fsWrite fs1 gpxFile pc
                match fsRename fs2 (gpxFile ++ ".orig") gpxFile with
                | .error _ => MergeResult.mk false fs2
                | .ok fs3 => MergeResult.mk false fs3

/-- The fields of a Python `datetime` as produced by `datetime.strptime`. -/
structure PyDateTime where
  year : ℕ
  month : ℕ
  day : ℕ
  hour : ℕ
  minute : ℕ
  second : ℕ
  microsecond : ℕ
deriving DecidableEq

/-- Value of a decimal digit character, if it is one. -/
def digitVal (c : Char) : Option ℕ :=
  if c.isDigit then some (c.toNat - 48) else none

/-- Read exactly `k` decimal digits, accumulating their value. -/
def readFixed : ℕ → List Char → ℕ → Option (ℕ × List Char)
  | 0, cs, acc => some (acc, cs)
  | k + 1, c :: cs, acc =>
    match digitVal c with
    | some d => readFixed k cs (acc * 10 + d)
    | none => none
  | _ + 1, [], _ => none

/-- Consume one expected literal character. -/
def expectChar (c : Char) : List Char → Option (List Char)
  | d :: cs => if d = c then some cs else none
  | [] => none

/-- Greedily read up to `n` more digits for a fractional-second field,
returning the accumulated value, the count of digits read, and the rest. -/
def readFracAux : ℕ → List Char → ℕ → ℕ → ℕ × ℕ × List Char
  | 0, cs, acc, k => (acc, k, cs)
  | _ + 1, [], acc, k => (acc, k, [])
  | n + 1, c :: cs, acc, k =>
    match digitVal c with
    | some d => readFracAux n cs (acc * 10 + d) (k + 1)
    | none => (acc, k, c :: cs)

/-- The `%f` directive of `strptime`: one to six digits, scaled to
microseconds (`.5` means 500000). -/
def readFrac (cs : List Char) : Option (ℕ × List Char) :=
  let r := readFracAux 6 cs 0 0
  if r.2.1 = 0 then none else some (r.1 * 10 ^ (6 - r.2.1), r.2.2)

/-- Was this year a leap year (proleptic Gregorian, as Python's calendar). -/
def isLeap (y : ℕ) : Bool :=
  y % 4 == 0 && (y % 100 != 0 || y % 400 == 0)

/-- Number of days in the given month of the given year. -/
def daysInMonth (y m : ℕ) : ℕ :=
  if m = 2 then (if isLeap y then 29 else 28)
  else if m = 4 ∨ m = 6 ∨ m = 9 ∨ m = 11 then 30 else 31

/-- Construct a `datetime` from parsed fields, with the range validation
that `strptime` and the `datetime` constructor perform (`ValueError`
otherwise: year 1-9999, month 1-12, day within the month, hour 0-23,
minute 0-59, second 0-59). -/
def mkDateTime (y mo d h mi s us : ℕ) : Option PyDateTime :=
  if 1 ≤ y ∧ y ≤ 9999 ∧ 1 ≤ mo ∧ mo ≤ 12 ∧ 1 ≤ d ∧ d ≤ daysInMonth y mo ∧
      h ≤ 23 ∧ mi ≤ 59 ∧ s ≤ 59 then
    some (PyDateTime.mk y mo d h mi s us)
  else none

/-- The shared date-time prefix `%Y-%m-%dT%H:%M:%S` of the two GPX formats,
on the zero-padded fixed-width timestamps GPX files carry. -/
def readDateTimeBase (cs : List Char) : Option ((ℕ × ℕ × ℕ × ℕ × ℕ × ℕ) × List Char) :=
  match readFixed 4 cs 0 with
  | none => none
  | some (y, cs) =>
    match expectChar '-' cs with
    | none => none
    | some cs =>
      match readFixed 2 cs 0 with
      | none => none
      | some (mo, cs) =>
        match expectChar '-' cs with
        | none => none
        | some cs =>
          match readFixed 2 cs 0 with
          | none => none
          | some (d, cs) =>
            match expectChar 'T' cs with
            | none => none
            | some cs =>
              match readFixed 2 cs 0 with
              | none => none
              | some (h, cs) =>
                match expectChar ':' cs with
                | none => none
                | some cs =>
                  match readFixed 2 cs 0 with
                  | none => none
                  | some (mi, cs) =>
                    match expectChar ':' cs with
                    | none => none
                    | some cs =>
                      match readFixed 2 cs 0 with
                      | none => none
                      | some (s, cs) => some ((y, mo, d, h, mi, s), cs)

/-- `datetime.strptime(s, "%Y-%m-%dT%H:%M:%SZ")`: no fractional seconds, so
the `microsecond` field is 0. -/
def strptimeGpxNoFrac (str : String) : Option PyDateTime :=
  match readDateTimeBase str.data with
  | none => none
  | some ((y, mo, d, h, mi, s), cs) =>
    match expectChar 'Z' cs with
    | none => none
    | some rest => if rest = [] then mkDateTime y mo d h mi s 0 else none

/-- `datetime.strptime(s, "%Y-%m-%dT%H:%M:%S.%fZ")`: the `%f` digits are
kept in the `microsecond` field. -/
def strptimeGpxFrac (str : String) : Option PyDateTime :=
  match readDateTimeBase str.data with
  | none => none
  | some ((y, mo, d, h, mi, s), cs) =>
    match expectChar '.' cs with
    | none => none
    | some cs =>
      match readFrac cs with
      | none => none
      | some (us, cs) =>
        match expectChar 'Z' cs with
        | none => none
        | some rest => if rest = [] then mkDateTime y mo d h mi s us else none

/-- `parse_datetime(s, GPX_DATE_FMTS)` (source lines 12 and 23-27): try the
format without fractional seconds first, then the one with them; `none` is
the final `raise ValueError`. -/
def parse_datetime_gpx (s : String) : Option PyDateTime :=
  match strptimeGpxNoFrac s with
  | some dt => some dt
  | none => strptimeGpxFrac s

/-- Days between the given proleptic-Gregorian civil date and 1970-01-01
(negative before the epoch). -/
def daysFromCivil (y mo d : ℕ) : ℤ :=
  let ys : ℕ := if mo ≤ 2 then y - 1 else y
  let era : ℕ := ys / 400
  let yoe : ℕ := ys % 400
  let mp : ℕ := if 2 < mo then mo - 3 else mo + 9
  let doy : ℕ := (153 * mp + 2) / 5 + (d - 1)
  let doe : ℕ := yoe * 365 + yoe / 4 - yoe / 100 + doy
  ((era * 146097 + doe : ℕ) : ℤ) - 719468

/-- The instant a `datetime` denotes, in microseconds since the epoch: the
integer embedding used by the alignment engine.  Python's `datetime`
comparison and subtraction agree with comparison and subtraction of this
count. -/
def PyDateTime.toMicros (dt : PyDateTime) : ℤ :=
  (daysFromCivil dt.year dt.month dt.day * 86400 +
    (dt.hour : ℤ) * 3600 + (dt.minute : ℤ) * 60 + (dt.second : ℤ)) * 1000000 +
    (dt.microsecond : ℤ)

theorem fdiv_two (a : ℤ) : a.fdiv 2 = a / 2 :=
  Int.fdiv_eq_ediv a (by norm_num)

theorem pyIndex_ok (data : List (ℤ × ℤ)) (i : ℤ)
    (h0 : 0 ≤ i) (h1 : i < (data.length : ℤ)) :
    pyIndex data i = .ok (elt data i) := by
  unfold pyIndex elt
  have hneg : ¬ i < 0 := by omega
  simp only [hneg, if_false]
  rw [if_pos]
  exact ⟨h0, h1⟩

theorem sorted_lt_of_lt {data : List (ℤ × ℤ)} (hs : StrictSorted data) {i j : ℤ}
    (h0 : 0 ≤ i) (hij : i < j) (hj : j < (data.length : ℤ)) :
    (elt data i).1 < (elt data j).1 := by
  have h1 : i.toNat < j.toNat := by omega
  have h2 : j.toNat < data.length := by omega
  have h3 := hs i.toNat (by omega) j.toNat h2 h1
  simpa [elt] using h3

theorem sorted_le_of_le {data : List (ℤ × ℤ)} (hs : StrictSorted data) {i j : ℤ}
    (h0 : 0 ≤ i) (hij : i ≤ j) (hj : j < (data.length : ℤ)) :
    (elt data i).1 ≤ (elt data j).1 := by
  rcases lt_or_eq_of_le hij with h | h
  · exact le_of_lt (sorted_lt_of_lt hs h0 h hj)
  · rw [h]

theorem sorted_idx_eq {data : List (ℤ × ℤ)} (hs : StrictSorted data) {i j : ℤ}
    (hi0 : 0 ≤ i) (hi : i < (data.length : ℤ)) (hj0 : 0 ≤ j) (hj : j < (data.length : ℤ))
    (h : (elt data i).1 = (elt data j).1) : i = j := by
  by_contra hne
  rcases lt_or_gt_of_ne hne with hlt | hgt
  · exact absurd h (ne_of_lt (sorted_lt_of_lt hs hi0 hlt hj))
  · exact absurd h.symm (ne_of_lt (sorted_lt_of_lt hs hj0 hgt hi))

theorem bsLoop_exact (data : List (ℤ × ℤ)) (t : ℤ) (hs : StrictSorted data) (m : ℤ)
    (hm0 : 0 ≤ m) (hmlen : m < (data.length : ℤ)) (hkey : (elt data m).1 = t) :
    ∀ fuel : ℕ, ∀ lo hi : ℤ, ∀ prev : Option ℤ,
      0 ≤ lo → hi < (data.length : ℤ) → lo ≤ m → m ≤ hi → hi - lo < (fuel : ℤ) →
      bsLoop data t fuel lo hi prev = .ok (.exact (elt data m).2) := by
  intro fuel
  induction fuel with
  | zero =>
    intro lo hi prev hlo hhi hlom hmhi hfuel
    exact absurd hfuel (by omega)
  | succ f ih =>
    intro lo hi prev hlo hhi hlom hmhi hfuel
    have hlohi : lo ≤ hi := le_trans hlom hmhi
    have hidx1 : lo ≤ (lo + hi).fdiv 2 := by rw [fdiv_two]; omega
    have hidx2 : (lo + hi).fdiv 2 ≤ hi := by rw [fdiv_two]; omega
    simp only [bsLoop, if_pos hlohi,
      pyIndex_ok data ((lo + hi).fdiv 2) (by omega) (by omega)]
    by_cases heq : (elt data ((lo + hi).fdiv 2)).1 = t
    · have : (lo + hi).fdiv 2 = m :=
        sorted_idx_eq hs (by omega) (by omega) hm0 hmlen (by rw [heq, hkey])
      simp only [this, if_pos hkey]
    · simp only [if_neg heq]
      by_cases hlt : (elt data ((lo + hi).fdiv 2)).1 < t
      · have hm : (lo + hi).fdiv 2 < m := by
          by_contra hc
          have := sorted_le_of_le hs hm0 (by omega) (by omega : (lo + hi).fdiv 2 < (data.length : ℤ))
          omega
        simp only [if_pos hlt]
        exact ih ((lo + hi).fdiv 2 + 1) hi (some ((lo + hi).fdiv 2))
          (by omega) hhi (by omega) hmhi (by omega)
      · have hgt : t < (elt data ((lo + hi).fdiv 2)).1 := by
          rcases lt_trichotomy (elt data ((lo + hi).fdiv 2)).1 t with h | h | h
          · exact absurd h hlt
          · exact absurd h heq
          · exact h
        have hm : m < (lo + hi).fdiv 2 := by
          by_contra hc
          have := sorted_le_of_le hs (by omega) (by omega : (lo + hi).fdiv 2 ≤ m) hmlen
          omega
        simp only [if_neg hlt]
        exact ih lo ((lo + hi).fdiv 2 - 1) (some ((lo + hi).fdiv 2))
          hlo (by omega) (by omega) (by omega) (by omega)

theorem bsLoop_nomatch (data : List (ℤ × ℤ)) (t : ℤ) (hs : StrictSorted data)
    (hnone : ∀ k : ℤ, 0 ≤ k → k < (data.length : ℤ) → (elt data k).1 ≠ t) :
    ∀ fuel : ℕ, ∀ lo hi : ℤ, ∀ prev : Option ℤ,
      0 ≤ lo → hi < (data.length : ℤ) → lo ≤ hi →
      (∀ k : ℤ, 0 ≤ k → k < (data.length : ℤ) → k < lo → (elt data k).1 < t) →
      (∀ k : ℤ, 0 ≤ k → k < (data.length : ℤ) → hi < k → t < (elt data k).1) →
      hi - lo + 1 < (fuel : ℤ) →
      ∃ i : ℤ, bsLoop data t fuel lo hi prev = .ok (.done i) ∧
        0 ≤ i ∧ i < (data.length : ℤ) ∧
        ∀ k : ℤ, 0 ≤ k → k < (data.length : ℤ) →
          ((elt data k).1 < t ↔ k ≤ (if (elt data i).1 > t then i - 1 else i)) := by
  intro fuel
  induction fuel with
  | zero =>
    intro lo hi prev hlo hhi hlohi hbelow habove hfuel
    exact absurd hfuel (by omega)
  | succ f ih =>
    intro lo hi prev hlo hhi hlohi hbelow habove hfuel
    have hidx1 : lo ≤ (lo + hi).fdiv 2 := by rw [fdiv_two]; omega
    have hidx2 : (lo + hi).fdiv 2 ≤ hi := by rw [fdiv_two]; omega
    set idx := (lo + hi).fdiv 2 with hidxdef
    have hne : (elt data idx).1 ≠ t := hnone idx (by omega) (by omega)
    simp only [bsLoop, if_pos hlohi, ← hidxdef,
      pyIndex_ok data idx (by omega) (by omega), if_neg hne]
    by_cases hlt : (elt data idx).1 < t
    · simp only [if_pos hlt]
      by_cases hend : idx + 1 ≤ hi
      · have hbelow2 : ∀ k : ℤ, 0 ≤ k → k < (data.length : ℤ) → k < idx + 1 →
            (elt data k).1 < t := by
          intro k hk0 hklen hk
          calc (elt data k).1 ≤ (elt data idx).1 :=
                sorted_le_of_le hs hk0 (by omega) (by omega)
            _ < t := hlt
        exact ih (idx + 1) hi (some idx) (by omega) hhi hend hbelow2 habove (by omega)
      · have hidxhi : idx = hi := by omega
        have hf1 : ∃ f2, f = f2 + 1 := ⟨f - 1, by omega⟩
        obtain ⟨f2, rfl⟩ := hf1
        refine ⟨idx, ?_, by omega, by omega, ?_⟩
        · simp only [bsLoop, if_neg (by omega : ¬ idx + 1 ≤ hi)]
        · intro k hk0 hklen
          rw [if_neg (by exact fun hc => absurd (lt_trans hlt hc) (lt_irrefl _))]
          constructor
          · intro hklt
            by_contra hk
            have := habove k hk0 hklen (by omega)
            omega
          · intro hk
            calc (elt data k).1 ≤ (elt data idx).1 :=
                  sorted_le_of_le hs hk0 hk (by omega)
              _ < t := hlt
    · have hgt : t < (elt data idx).1 := by
        rcases lt_trichotomy (elt data idx).1 t with h | h | h
        · exact absurd h hlt
        · exact absurd h hne
        · exact h
      simp only [if_neg hlt]
      by_cases hend : lo ≤ idx - 1
      · have habove2 : ∀ k : ℤ, 0 ≤ k → k < (data.length : ℤ) → idx - 1 < k →
            t < (elt data k).1 := by
          intro k hk0 hklen hk
          calc t < (elt data idx).1 := hgt
            _ ≤ (elt data k).1 := sorted_le_of_le hs (by omega) (by omega) hklen
        exact ih lo (idx - 1) (some idx) hlo (by omega) hend hbelow habove2 (by omega)
      · have hidxlo : idx = lo := by omega
        have hf1 : ∃ f2, f = f2 + 1 := ⟨f - 1, by omega⟩
        obtain ⟨f2, rfl⟩ := hf1
        refine ⟨idx, ?_, by omega, by omega, ?_⟩
        · simp only [bsLoop, if_neg (by omega : ¬ lo ≤ idx - 1)]
        · intro k hk0 hklen
          rw [if_pos hgt]
          constructor
          · intro hklt
            by_contra hk
            have hge : idx ≤ k := by omega
            have := sorted_le_of_le hs (by omega) hge hklen
            omega
          · intro hk
            exact hbelow k hk0 hklen (by omega)

theorem lerp_exact_aux (data : List (ℤ × ℤ)) (t v m : ℤ) (mi : Option ℚ)
    (hs : StrictSorted data) (hm0 : 0 ≤ m) (hm : m < (data.length : ℤ))
    (he : elt data m = (t, v)) :
    binary_search_lerp t data mi = .ok (some v) := by
  have hkey : (elt data m).1 = t := by rw [he]
  have hloop := bsLoop_exact data t hs m hm0 hm hkey (data.length + 1) 0
    ((data.length : ℤ) - 1) none (le_refl 0) (by omega) (by omega) (by omega)
    (by push_cast; omega)
  unfold binary_search_lerp
  rw [hloop, he]

theorem lerp_bracket_aux (data : List (ℤ × ℤ)) (t u1 u2 v1 v2 i0 : ℤ) (mi : Option ℚ)
    (hs : StrictSorted data) (h00 : 0 ≤ i0) (hlen : i0 + 1 < (data.length : ℤ))
    (he1 : elt data i0 = (u1, v1)) (he2 : elt data (i0 + 1) = (u2, v2))
    (ht1 : u1 < t) (ht2 : t < u2) :
    binary_search_lerp t data mi =
      .ok (if gapTooBig mi (t - u1) (u2 - t) then none
        else some (pyRound ((v1 : ℚ) + ((v2 : ℚ) - (v1 : ℚ)) *
          (((t : ℚ) - (u1 : ℚ)) / ((u2 : ℚ) - (u1 : ℚ)))))) := by
  have hk1 : (elt data i0).1 = u1 := by rw [he1]
  have hk2 : (elt data (i0 + 1)).1 = u2 := by rw [he2]
  have hnone : ∀ k : ℤ, 0 ≤ k → k < (data.length : ℤ) → (elt data k).1 ≠ t := by
    intro k hk0 hklen
    rcases le_or_lt k i0 with hk | hk
    · have : (elt data k).1 ≤ (elt data i0).1 := sorted_le_of_le hs hk0 hk (by omega)
      rw [hk1] at this
      omega
    · have : (elt data (i0 + 1)).1 ≤ (elt data k).1 :=
        sorted_le_of_le hs (by omega) (by omega) hklen
      rw [hk2] at this
      omega
  obtain ⟨i, hloop, hi0, hilen, hchar⟩ := bsLoop_nomatch data t hs hnone
    (data.length + 1) 0 ((data.length : ℤ) - 1) none (le_refl 0) (by omega)
    (by omega) (by intro k hk0 hklen hk; omega)
    (by intro k hk0 hklen hk; omega) (by push_cast; omega)
  have hj : (if (elt data i).1 > t then i - 1 else i) = i0 := by
    have h1 : i0 ≤ (if (elt data i).1 > t then i - 1 else i) := by
      have := (hchar i0 h00 (by omega)).mp (by rw [hk1]; exact ht1)
      exact this
    have h2 : ¬ (i0 + 1 ≤ (if (elt data i).1 > t then i - 1 else i)) := by
      intro hc
      have := (hchar (i0 + 1) (by omega) (by omega)).mpr hc
      rw [hk2] at this
      omega
    omega
  unfold binary_search_lerp
  rw [hloop]
  simp only [pyIndex_ok data i hi0 hilen, hj]
  rw [if_neg (by omega : ¬¬(0 ≤ i0 ∧ i0 < (data.length : ℤ) - 1))]
  simp only [pyIndex_ok data i0 (by omega) (by omega),
    pyIndex_ok data (i0 + 1) (by omega) (by omega), he1, he2]
  by_cases hgap : gapTooBig mi (t - u1) (u2 - t)
  · simp only [hgap, if_true]
  · simp only [hgap, if_false, Bool.false_eq_true]

theorem lerp_outside_aux (data : List (ℤ × ℤ)) (t : ℤ) (mi : Option ℚ)
    (hs : StrictSorted data) (hlen : 0 < data.length)
    (hout : t < (elt data 0).1 ∨ (elt data ((data.length : ℤ) - 1)).1 < t) :
    binary_search_lerp t data mi = .ok none := by
  have hnone : ∀ k : ℤ, 0 ≤ k → k < (data.length : ℤ) → (elt data k).1 ≠ t := by
    intro k hk0 hklen
    rcases hout with h | h
    · have : (elt data 0).1 ≤ (elt data k).1 := sorted_le_of_le hs (le_refl 0) hk0 hklen
      omega
    · have : (elt data k).1 ≤ (elt data ((data.length : ℤ) - 1)).1 :=
        sorted_le_of_le hs hk0 (by omega) (by omega)
      omega
  obtain ⟨i, hloop, hi0, hilen, hchar⟩ := bsLoop_nomatch data t hs hnone
    (data.length + 1) 0 ((data.length : ℤ) - 1) none (le_refl 0) (by omega)
    (by omega) (by intro k hk0 hklen hk; omega)
    (by intro k hk0 hklen hk; omega) (by push_cast; omega)
  have hJle : (if (elt data i).1 > t then i - 1 else i) ≤ i := by
    split <;> omega
  unfold binary_search_lerp
  rw [hloop]
  simp only [pyIndex_ok data i hi0 hilen]
  rcases hout with h | h
  · have hneg : ¬ (0 ≤ (if (elt data i).1 > t then i - 1 else i)) := by
      intro hc
      have := (hchar 0 (le_refl 0) (by omega)).mpr hc
      omega
    rw [if_pos (by omega : ¬(0 ≤ (if (elt data i).1 > t then i - 1 else i) ∧
      (if (elt data i).1 > t then i - 1 else i) < (data.length : ℤ) - 1))]
  · have hge : (data.length : ℤ) - 1 ≤ (if (elt data i).1 > t then i - 1 else i) := by
      exact (hchar ((data.length : ℤ) - 1) (by omega) (by omega)).mp h
    rw [if_pos (by omega : ¬(0 ≤ (if (elt data i).1 > t then i - 1 else i) ∧
      (if (elt data i).1 > t then i - 1 else i) < (data.length : ℤ) - 1))]

theorem pyRound_intCast (n : ℤ) : pyRound (n : ℚ) = n := by
  unfold pyRound
  norm_num

theorem pyRound_half (n : ℤ) : pyRound ((n : ℚ) + 1/2) = if n % 2 = 0 then n else n + 1 := by
  unfold pyRound
  have hf : ⌊(n : ℚ) + 1/2⌋ = n := by
    rw [Int.floor_int_add]
    norm_num
  simp only [hf]
  have hr : (n : ℚ) + 1/2 - n = 1/2 := by ring
  rw [hr]
  norm_num

theorem fsLookup_fsErase_self (fs : FileSystem) (n : String) :
    fsLookup (fsErase fs n) n = none := by
  induction fs with
  | nil => rfl
  | cons p rest ih =>
    by_cases h : p.1 = n
    · simp [fsErase, h, ih]
    · simp [fsErase, fsLookup, h, ih]

theorem fsLookup_fsErase_ne (fs : FileSystem) (n m : String) (h : n ≠ m) :
    fsLookup (fsErase fs n) m = fsLookup fs m := by
  induction fs with
  | nil => rfl
  | cons p rest ih =>
    by_cases hp : p.1 = n
    · have hpm : p.1 ≠ m := by rw [hp]; exact h
      simp [fsErase, fsLookup, hp, hpm, ih, h]
    · by_cases hm : p.1 = m
      · have hmn : m ≠ n := fun hx => hp (by rw [hm, hx])
        simp [fsErase, fsLookup, hp, hm, hmn]
      · simp [fsErase, fsLookup, hp, hm, ih]

theorem fsLookup_fsWrite_self (fs : FileSystem) (n : String) (c : ℕ) :
    fsLookup (fsWrite fs n c) n = some c := by
  simp [fsWrite, fsLookup]

theorem fsLookup_fsWrite_ne (fs : FileSystem) (n m : String) (c : ℕ) (h : n ≠ m) :
    fsLookup (fsWrite fs n c) m = fsLookup fs m := by
  simp only [fsWrite, fsLookup, if_neg h]
  exact fsLookup_fsErase_ne fs n m h

theorem gpx_ne_orig (s : String) : s ≠ s ++ ".orig" := by
  intro h
  have hl := congrArg String.length h
  rw [String.length_append] at hl
  have h5 : (".orig").length = 5 := rfl
  omega

theorem merge_restore_aux (fs : FileSystem) (gpxFile hrFile : String)
    (load : ℕ → Except Unit (List (ℤ × ℤ))) (body : List (ℤ × ℤ) → ℕ → BodyOutcome)
    (hc c0 : ℕ) (series : List (ℤ × ℤ)) (w : Option ℕ)
    (hhr : fsLookup fs hrFile = some hc)
    (hload : load hc = .ok series)
    (hgpx : fsLookup fs gpxFile = some c0)
    (horig : fsLookup fs (gpxFile ++ ".orig") = none)
    (hbody : body series c0 = .fail w) :
    (merge fs gpxFile hrFile load body).ok = false ∧
    fsLookup (merge fs gpxFile hrFile load body).fs gpxFile = some c0 ∧
    fsLookup (merge fs gpxFile hrFile load body).fs (gpxFile ++ ".orig") = none := by
  have hne : gpxFile ≠ gpxFile ++ ".orig" := gpx_ne_orig gpxFile
  have hne2 : gpxFile ++ ".orig" ≠ gpxFile := fun hx => hne hx.symm
  have hres : merge fs gpxFile hrFile load body =
      MergeResult.mk false
        (fsWrite (fsErase
          (match w with
            | none => fsWrite (fsErase fs gpxFile) (gpxFile ++ ".orig") c0
            | some pc => fsWrite (fsWrite (fsErase fs gpxFile) (gpxFile ++ ".orig") c0) gpxFile pc)
          (gpxFile ++ ".orig")) gpxFile c0) := by
    unfold merge fsRename
    rcases w with _ | pc
    · simp only [hhr, hload, hgpx, horig, hbody, Option.isNone_some, Option.isSome_none,
        Bool.false_eq_true, if_false, fsLookup_fsWrite_self]
    · simp only [hhr, hload, hgpx, horig, hbody, Option.isNone_some, Option.isSome_none,
        Bool.false_eq_true, if_false, fsLookup_fsWrite_self,
        fsLookup_fsWrite_ne _ _ _ _ hne]
  rw [hres]
  refine ⟨rfl, ?_, ?_⟩
  · exact fsLookup_fsWrite_self _ gpxFile c0
  · rw [fsLookup_fsWrite_ne _ _ _ _ hne]
    exact fsLookup_fsErase_self _ _

theorem merge_precondition_aux (fs : FileSystem) (gpxFile hrFile : String)
    (load : ℕ → Except Unit (List (ℤ × ℤ))) (body : List (ℤ × ℤ) → ℕ → BodyOutcome)
    (b : ℕ) (hb : fsLookup fs (gpxFile ++ ".orig") = some b) :
    (merge fs gpxFile hrFile load body).ok = false ∧
    (merge fs gpxFile hrFile load body).fs = fs := by
  unfold merge
  split
  · exact ⟨rfl, rfl⟩
  · split
    · exact ⟨rfl, rfl⟩
    · by_cases h1 : (fsLookup fs gpxFile).isNone = true
      · rw [if_pos h1]
        exact ⟨rfl, rfl⟩
      · rw [if_neg h1, if_pos (by rw [hb]; rfl :
          (fsLookup fs (gpxFile ++ ".orig")).isSome = true)]
        exact ⟨rfl, rfl⟩

theorem lerp_singleton_nomatch (u t v : ℤ) (mi : Option ℚ) (h : t ≠ u) :
    binary_search_lerp t [(u, v)] mi = .ok none := by
  have hs : StrictSorted [(u, v)] := by
    intro i hi j hj hij
    simp only [List.length_singleton] at hi hj
    omega
  rcases lt_or_gt_of_ne h with hlt | hgt
  · exact lerp_outside_aux [(u, v)] t mi hs (by simp) (Or.inl hlt)
  · exact lerp_outside_aux [(u, v)] t mi hs (by simp) (Or.inr hgt)

/-- C1: for a sorted series and a target instant strictly between two
adjacent samples with no gap-cap suppression, the engine returns the
rounded linear interpolant computed with real-valued time deltas. -/
theorem lerp_linear_interpolation (data : List (ℤ × ℤ)) (t u1 u2 v1 v2 i0 : ℤ)
    (mi : Option ℚ) (hs : StrictSorted data) (h00 : 0 ≤ i0)
    (hlen : i0 + 1 < (data.length : ℤ))
    (he1 : elt data i0 = (u1, v1)) (he2 : elt data (i0 + 1) = (u2, v2))
    (ht1 : u1 < t) (ht2 : t < u2)
    (hgap : gapTooBig mi (t - u1) (u2 - t) = false) :
    binary_search_lerp t data mi =
      .ok (some (pyRound ((v1 : ℚ) + ((v2 : ℚ) - (v1 : ℚ)) *
        (((t : ℚ) - (u1 : ℚ)) / ((u2 : ℚ) - (u1 : ℚ)))))) := by
  rw [lerp_bracket_aux data t u1 u2 v1 v2 i0 mi hs h00 hlen he1 he2 ht1 ht2, hgap]
  simp

theorem lerp_linear_interpolation_witness :
    StrictSorted [(0, 60), (10000000, 70)] ∧
    binary_search_lerp 5000000 [(0, 60), (10000000, 70)] none = .ok (some 65) := by
  constructor
  · decide
  · rw [lerp_linear_interpolation [(0, 60), (10000000, 70)] 5000000 0 10000000 60 70 0 none
      (by decide) (by decide) (by decide) (by decide) (by decide) (by decide) (by decide) rfl]
    norm_num [pyRound]

/-- C2: an exact timestamp match returns the stored sample value, for every
value of the maximum-interpolation-gap parameter. -/
theorem lerp_exact_match (data : List (ℤ × ℤ)) (t v m : ℤ) (mi : Option ℚ)
    (hs : StrictSorted data) (hm0 : 0 ≤ m) (hm : m < (data.length : ℤ))
    (he : elt data m = (t, v)) :
    binary_search_lerp t data mi = .ok (some v) :=
  lerp_exact_aux data t v m mi hs hm0 hm he

theorem lerp_exact_match_witness :
    StrictSorted [(0, 60), (10000000, 70)] ∧
    elt [(0, 60), (10000000, 70)] 1 = (10000000, 70) ∧
    binary_search_lerp 10000000 [(0, 60), (10000000, 70)] (some 4) = .ok (some 70) ∧
    binary_search_lerp 10000000 [(0, 60), (10000000, 70)] none = .ok (some 70) :=
  ⟨by decide, by decide,
    lerp_exact_match [(0, 60), (10000000, 70)] 10000000 70 1 (some 4)
      (by decide) (by decide) (by decide) (by decide),
    lerp_exact_match [(0, 60), (10000000, 70)] 10000000 70 1 none
      (by decide) (by decide) (by decide) (by decide)⟩

/-- C3: with a finite gap cap, when the smaller of the two bracketing gaps
exceeds the cap (in seconds), the engine returns no value. -/
theorem lerp_gap_suppression (data : List (ℤ × ℤ)) (t u1 u2 v1 v2 i0 : ℤ) (g : ℚ)
    (hs : StrictSorted data) (h00 : 0 ≤ i0)
    (hlen : i0 + 1 < (data.length : ℤ))
    (he1 : elt data i0 = (u1, v1)) (he2 : elt data (i0 + 1) = (u2, v2))
    (ht1 : u1 < t) (ht2 : t < u2)
    (hgap : ((min (t - u1) (u2 - t) : ℤ) : ℚ) / 1000000 > g) :
    binary_search_lerp t data (some g) = .ok none := by
  rw [lerp_bracket_aux data t u1 u2 v1 v2 i0 (some g) hs h00 hlen he1 he2 ht1 ht2]
  have hg : gapTooBig (some g) (t - u1) (u2 - t) = true := by
    unfold gapTooBig
    rw [decide_eq_true_eq]
    exact hgap
  rw [hg]
  simp

theorem lerp_gap_suppression_witness :
    StrictSorted [(0, 60), (10000000, 70)] ∧
    ((min (5000000 - 0) (10000000 - 5000000) : ℤ) : ℚ) / 1000000 > 4 ∧
    binary_search_lerp 5000000 [(0, 60), (10000000, 70)] (some 4) = .ok none :=
  ⟨by decide, by norm_num,
    lerp_gap_suppression [(0, 60), (10000000, 70)] 5000000 0 10000000 60 70 0 4
      (by decide) (by decide) (by decide) (by decide) (by decide) (by decide) (by decide)
      (by norm_num)⟩

/-- C4 counterexample: querying exactly at the last (here, only) sample's
instant is an exact match and returns that sample's value, not no value as
the claim states. -/
theorem lerp_at_last_counterexample :
    binary_search_lerp 0 [(0, 60)] none = .ok (some 60) ∧
    binary_search_lerp 0 [(0, 60)] none ≠ .ok none := by
  exact ⟨by decide, by decide⟩

/-- C4 (amended): querying strictly before the first or strictly after the
last sample returns no value (no extrapolation); querying exactly at the
last sample's instant returns that sample's value. -/
theorem lerp_no_extrapolation (data : List (ℤ × ℤ)) (t : ℤ) (mi : Option ℚ)
    (hs : StrictSorted data) (hlen : 0 < data.length) :
    (t < (elt data 0).1 ∨ (elt data ((data.length : ℤ) - 1)).1 < t →
      binary_search_lerp t data mi = .ok none) ∧
    binary_search_lerp (elt data ((data.length : ℤ) - 1)).1 data mi =
      .ok (some (elt data ((data.length : ℤ) - 1)).2) := by
  constructor
  · exact fun hout => lerp_outside_aux data t mi hs hlen hout
  · exact lerp_exact_aux data _ _ ((data.length : ℤ) - 1) mi hs (by omega) (by omega) rfl

theorem lerp_no_extrapolation_witness :
    StrictSorted [(0, 60), (10000000, 70)] ∧
    binary_search_lerp 20000000 [(0, 60), (10000000, 70)] none = .ok none ∧
    binary_search_lerp 10000000 [(0, 60), (10000000, 70)] none = .ok (some 70) :=
  ⟨by decide,
    (lerp_no_extrapolation [(0, 60), (10000000, 70)] 20000000 none
      (by decide) (by decide)).1 (Or.inr (by decide)),
    (lerp_no_extrapolation [(0, 60), (10000000, 70)] 20000000 none
      (by decide) (by decide)).2⟩

/-- C5 (code bug): on the empty series the `while` body never runs, so the
loop variable `idx` is never assigned (line 86 initialises a stray `i`
instead) and line 99 raises `NameError`: the call crashes for every query
instead of returning no value. -/
theorem lerp_empty_series_crashes (t : ℤ) (mi : Option ℚ) :
    binary_search_lerp t [] mi = .error () := rfl

/-- C6: when the try-block (parse, alignment, write) fails after the
original has been renamed to the backup name, `merge` renames the backup
back before re-raising, so the original path again holds the pre-run
content and the backup name is gone. -/
theorem merge_restores_backup_on_failure (fs : FileSystem) (gpxFile hrFile : String)
    (load : ℕ → Except Unit (List (ℤ × ℤ))) (body : List (ℤ × ℤ) → ℕ → BodyOutcome)
    (hc c0 : ℕ) (series : List (ℤ × ℤ)) (w : Option ℕ)
    (hhr : fsLookup fs hrFile = some hc)
    (hload : load hc = .ok series)
    (hgpx : fsLookup fs gpxFile = some c0)
    (horig : fsLookup fs (gpxFile ++ ".orig") = none)
    (hbody : body series c0 = .fail w) :
    (merge fs gpxFile hrFile load body).ok = false ∧
    fsLookup (merge fs gpxFile hrFile load body).fs gpxFile = some c0 ∧
    fsLookup (merge fs gpxFile hrFile load body).fs (gpxFile ++ ".orig") = none :=
  merge_restore_aux fs gpxFile hrFile load body hc c0 series w hhr hload hgpx horig hbody

theorem merge_restores_backup_on_failure_witness :
    fsLookup [("a.gpx", 1), ("hr.csv", 2)] "hr.csv" = some 2 ∧
    fsLookup [("a.gpx", 1), ("hr.csv", 2)] "a.gpx" = some 1 ∧
    fsLookup [("a.gpx", 1), ("hr.csv", 2)] ("a.gpx" ++ ".orig") = none ∧
    (merge [("a.gpx", 1), ("hr.csv", 2)] "a.gpx" "hr.csv" (fun _ => .ok [])
      (fun _ _ => .fail (some 99))).ok = false ∧
    fsLookup (merge [("a.gpx", 1), ("hr.csv", 2)] "a.gpx" "hr.csv" (fun _ => .ok [])
      (fun _ _ => .fail (some 99))).fs "a.gpx" = some 1 ∧
    fsLookup (merge [("a.gpx", 1), ("hr.csv", 2)] "a.gpx" "hr.csv" (fun _ => .ok [])
      (fun _ _ => .fail (some 99))).fs ("a.gpx" ++ ".orig") = none := by
  have h := merge_restores_backup_on_failure [("a.gpx", 1), ("hr.csv", 2)] "a.gpx" "hr.csv"
    (fun _ => .ok []) (fun _ _ => .fail (some 99)) 2 1 [] (some 99)
    (by decide) rfl (by decide) (by decide) rfl
  exact ⟨by decide, by decide, by decide, h.1, h.2.1, h.2.2⟩

/-- C7: when the backup file already exists before the run, `merge` fails
without touching the filesystem at all, so in particular the original and
the old backup are unmodified. -/
theorem merge_refuses_existing_backup (fs : FileSystem) (gpxFile hrFile : String)
    (load : ℕ → Except Unit (List (ℤ × ℤ))) (body : List (ℤ × ℤ) → ℕ → BodyOutcome)
    (b : ℕ) (hb : fsLookup fs (gpxFile ++ ".orig") = some b) :
    (merge fs gpxFile hrFile load body).ok = false ∧
    (merge fs gpxFile hrFile load body).fs = fs :=
  merge_precondition_aux fs gpxFile hrFile load body b hb

theorem merge_refuses_existing_backup_witness :
    fsLookup [("a.gpx", 10), ("a.gpx.orig", 20), ("hr.csv", 30)] ("a.gpx" ++ ".orig") = some 20 ∧
    (merge [("a.gpx", 10), ("a.gpx.orig", 20), ("hr.csv", 30)] "a.gpx" "hr.csv"
      (fun _ => .ok []) (fun _ c => .ok c)).ok = false ∧
    (merge [("a.gpx", 10), ("a.gpx.orig", 20), ("hr.csv", 30)] "a.gpx" "hr.csv"
      (fun _ => .ok []) (fun _ c => .ok c)).fs =
      [("a.gpx", 10), ("a.gpx.orig", 20), ("hr.csv", 30)] := by
  have h := merge_refuses_existing_backup [("a.gpx", 10), ("a.gpx.orig", 20), ("hr.csv", 30)]
    "a.gpx" "hr.csv" (fun _ => .ok []) (fun _ c => .ok c) 20 (by decide)
  exact ⟨by decide, h.1, h.2⟩

/-- C8: an aligned heart-rate result of exactly 0 is falsy in Python, so
the merge loop's `if hr_at_time:` skips `set_hr` and the trackpoint is left
unmodified. -/
theorem merge_zero_hr_left_unset (hrData : List (ℤ × ℤ)) (mi : Option ℚ) (pt : Trackpoint)
    (h : binary_search_lerp pt.time hrData mi = .ok (some 0)) :
    mergePoint hrData mi pt = .ok pt := by
  unfold mergePoint
  simp only [h]
  simp

theorem merge_zero_hr_left_unset_witness :
    binary_search_lerp (Trackpoint.mk 0 none).time [(0, 0)] none = .ok (some 0) ∧
    mergePoint [(0, 0)] none (Trackpoint.mk 0 none) = .ok (Trackpoint.mk 0 none) :=
  ⟨by decide, merge_zero_hr_left_unset [(0, 0)] none (Trackpoint.mk 0 none) (by decide)⟩

/-- C9 counterexample: the fractional-second GPX format keeps microseconds,
so two parsed instants that agree to the second but differ in the fraction
are distinct: looking one up in a series holding the other finds no exact
match (and, with a singleton series, no value at all) instead of comparing
equal as the claim states. -/
theorem subsecond_counterexample :
    parse_datetime_gpx "2020-01-01T00:00:00Z" = some (PyDateTime.mk 2020 1 1 0 0 0 0) ∧
    parse_datetime_gpx "2020-01-01T00:00:00.500000Z" =
      some (PyDateTime.mk 2020 1 1 0 0 0 500000) ∧
    (PyDateTime.mk 2020 1 1 0 0 0 0).toMicros / 1000000 =
      (PyDateTime.mk 2020 1 1 0 0 0 500000).toMicros / 1000000 ∧
    binary_search_lerp (PyDateTime.mk 2020 1 1 0 0 0 500000).toMicros
      [((PyDateTime.mk 2020 1 1 0 0 0 0).toMicros, 60)] none ≠ .ok (some 60) ∧
    binary_search_lerp (PyDateTime.mk 2020 1 1 0 0 0 500000).toMicros
      [((PyDateTime.mk 2020 1 1 0 0 0 0).toMicros, 60)] none = .ok none :=
  ⟨by decide, by decide, by decide, by decide, by decide⟩

/-- C9 (amended): sub-second precision is retained, not discarded: two
parsed instants that differ only in their microsecond field denote
different instants, and exact-match lookup distinguishes them (a singleton
series holding one yields no value when queried at the other). -/
theorem subsecond_precision_retained (a b : PyDateTime) (v : ℤ) (mi : Option ℚ)
    (hy : a.year = b.year) (hmo : a.month = b.month) (hd : a.day = b.day)
    (hh : a.hour = b.hour) (hmi : a.minute = b.minute) (hsec : a.second = b.second)
    (hus : a.microsecond ≠ b.microsecond) :
    a.toMicros ≠ b.toMicros ∧
    binary_search_lerp b.toMicros [(a.toMicros, v)] mi = .ok none := by
  have hne : a.toMicros ≠ b.toMicros := by
    unfold PyDateTime.toMicros
    rw [hy, hmo, hd, hh, hmi, hsec]
    intro hcon
    have hz : (a.microsecond : ℤ) = (b.microsecond : ℤ) := by omega
    exact hus (by exact_mod_cast hz)
  exact ⟨hne, lerp_singleton_nomatch a.toMicros b.toMicros v mi (fun hx => hne hx.symm)⟩

theorem subsecond_precision_retained_witness :
    (PyDateTime.mk 2020 1 1 0 0 0 0).microsecond ≠
      (PyDateTime.mk 2020 1 1 0 0 0 500000).microsecond ∧
    (PyDateTime.mk 2020 1 1 0 0 0 0).toMicros ≠
      (PyDateTime.mk 2020 1 1 0 0 0 500000).toMicros ∧
    binary_search_lerp (PyDateTime.mk 2020 1 1 0 0 0 500000).toMicros
      [((PyDateTime.mk 2020 1 1 0 0 0 0).toMicros, 60)] none = .ok none := by
  have h := subsecond_precision_retained (PyDateTime.mk 2020 1 1 0 0 0 0)
    (PyDateTime.mk 2020 1 1 0 0 0 500000) 60 none rfl rfl rfl rfl rfl rfl (by decide)
  exact ⟨by decide, h.1, h.2⟩

/-- C10: interpolation rounding is round-half-to-even: when the exact
linear interpolant is an integer plus one half, the engine returns the even
neighbour. -/
theorem lerp_round_half_to_even (data : List (ℤ × ℤ)) (t u1 u2 v1 v2 i0 n : ℤ)
    (mi : Option ℚ) (hs : StrictSorted data) (h00 : 0 ≤ i0)
    (hlen : i0 + 1 < (data.length : ℤ))
    (he1 : elt data i0 = (u1, v1)) (he2 : elt data (i0 + 1) = (u2, v2))
    (ht1 : u1 < t) (ht2 : t < u2)
    (hgap : gapTooBig mi (t - u1) (u2 - t) = false)
    (hhalf : (v1 : ℚ) + ((v2 : ℚ) - (v1 : ℚ)) *
      (((t : ℚ) - (u1 : ℚ)) / ((u2 : ℚ) - (u1 : ℚ))) = (n : ℚ) + 1/2) :
    binary_search_lerp t data mi = .ok (some (if n % 2 = 0 then n else n + 1)) ∧
    (if n % 2 = 0 then n else n + 1) % 2 = 0 := by
  constructor
  · rw [lerp_bracket_aux data t u1 u2 v1 v2 i0 mi hs h00 hlen he1 he2 ht1 ht2, hgap]
    simp only [Bool.false_eq_true, if_false]
    rw [hhalf, pyRound_half]
  · split_ifs with h
    · exact h
    · omega

theorem lerp_round_half_to_even_witness :
    StrictSorted [(0, 60), (2000000, 61)] ∧
    (60 : ℚ) + ((61 : ℚ) - (60 : ℚ)) *
      (((1000000 : ℚ) - (0 : ℚ)) / ((2000000 : ℚ) - (0 : ℚ))) = (60 : ℚ) + 1/2 ∧
    binary_search_lerp 1000000 [(0, 60), (2000000, 61)] none = .ok (some 60) ∧
    (60 : ℤ) % 2 = 0 := by
  have h := lerp_round_half_to_even [(0, 60), (2000000, 61)] 1000000 0 2000000 60 61 0 60
    none (by decide) (by decide) (by decide) (by decide) (by decide) (by decide) (by decide)
    rfl (by norm_num)
  refine ⟨by decide, by norm_num, ?_, by decide⟩
  have h1 := h.1
  norm_num at h1
  exact h1
